import Mathlib

/-!
Shallow embedding of the git-stats aggregation pipeline (`src/main.rs`).

The program walks the HEAD tree of a git repository, blames every blob
(file), and merges per-file author→lines attribution maps into one global
tally, either sequentially (`single_threaded`) or through a
producer / worker-pool / accumulator pipeline (`multi_threaded`).

Modelling conventions:
* `HashMap<String, usize>` is modelled as an association list in iteration
  order (`HBlames`); the `entry(k).or_insert(0) += v` idiom is `insertAdd`.
* The git2 collaborators (repository handle, blame oracle, tree walk order)
  are external: the embedding takes the walk-order entry list and an oracle
  function `String → Except Unit HBlames` as parameters.
* A Rust panic (`unwrap` / `expect` on an error) aborts the surrounding
  execution; it is modelled as `none` / a dead-task flag.
* Machine integers (`usize`, `u8`) are modelled as `Nat`; none of the
  counters involved can overflow on representable repositories and no
  wrapping arithmetic is performed by the source.
-/

set_option linter.unusedVariables false

/-- Author attribution map: models Rust's `HashMap<String, usize>` as an
association list in iteration order. Maps built by the map API have unique
keys; the lemmas below do not depend on that unless stated. -/
abbrev HBlames : Type := List (String × Nat)

/-- Models `*hm.entry(k).or_insert(0) += v`: add `v` to the entry for key
`k`, appending a fresh `(k, v)` entry when the key is absent. -/
def insertAdd : HBlames → String → Nat → HBlames
  | [], k, v => [(k, v)]
  | (k', v') :: rest, k, v =>
    if k' = k then (k', v' + v) :: rest else (k', v') :: insertAdd rest k v

/-- The count stored for key `k`, with the `or_insert(0)` default of 0 for
an absent key. -/
def lookupD : HBlames → String → Nat
  | [], _ => 0
  | (k', v') :: rest, k => if k' = k then v' else lookupD rest k

/-- Total lines attributed to author `a` by the entries of `m` (the sum over
every entry whose key is `a`). -/
def keySum (a : String) (m : HBlames) : Nat :=
  ((m.filter fun p => p.1 = a).map Prod.snd).sum

/-- Models the `Blame` output record (`author`, `lines`). -/
structure Blame where
  author : String
  lines : Nat
  deriving DecidableEq, Repr

abbrev Blames : Type := List Blame

/-- Models the `BlameMessage` channel payload: a partial per-file
attribution map, or the terminal item count from the tree walker. -/
inductive BlameMessage where
  | Blame (b : HBlames)
  | Count (i : Nat)
  deriving DecidableEq, Repr

/-- Models one hunk of a git blame: the final signature's email (absent when
the committer has none) and the hunk's line count. -/
structure BlameHunk where
  email : Option String
  lines_in_hunk : Nat

/-- Models `blame_file`: iterate the blame hunks of one file, keying each
hunk by `final_signature().email().unwrap_or("unknown")` and accumulating
`lines_in_hunk` into the per-author entry. The git2 blame computation
itself is the external blame oracle; it supplies the hunk list. -/
def blame_file (hunks : List BlameHunk) : HBlames :=
  hunks.foldl (fun authors ch => insertAdd authors (ch.email.getD "unknown") ch.lines_in_hunk) []

/-- Models `blame_fold`: fold one per-file attribution map into the
accumulating map, entry by entry. -/
def blame_fold (hm : HBlames) (blame : HBlames) : HBlames :=
  blame.foldl (fun h p => insertAdd h p.1 p.2) hm

/-- Models `blame_acc`: the in-place variant of `blame_fold`, with the same
body (the mutable reference is threaded as the return value). -/
def blame_acc (hm : HBlames) (blame : HBlames) : HBlames :=
  blame.foldl (fun h p => insertAdd h p.1 p.2) hm

/-- Descending-by-lines ordering used by
`sort_by(|lhs, rhs| rhs.lines.cmp(&lhs.lines))`: `a` sorts no later than
`b` when `a` owns at least as many lines. -/
def blameGE (a b : Blame) : Prop := b.lines ≤ a.lines

instance : DecidableRel blameGE := fun a b => Nat.decLe b.lines a.lines

instance : IsTotal Blame blameGE := ⟨fun a b => Nat.le_total b.lines a.lines⟩

instance : IsTrans Blame blameGE := ⟨fun _ _ _ h1 h2 => Nat.le_trans h2 h1⟩

/-- Models `hm_into_vec`: turn the map's entries (in iteration order) into
`Blame` records and sort by line count descending. Rust's `sort_by` is a
stable sort and compares only the line counts; stable insertion sort over
`blameGE` computes the same output. -/
def hm_into_vec (authors : HBlames) : Blames :=
  List.insertionSort blameGE (authors.map fun p => ⟨p.1, p.2⟩)

/-- Object kinds a tree entry can carry (git2 `ObjectType`). -/
inductive GObjectType where
  | Blob
  | Tree
  | Commit
  | Tag
  deriving DecidableEq, Repr

/-- One callback invocation of the pre-order tree walk: the directory
path handed to the callback, the entry name, and the entry's kind
(`entry.kind()` is an `Option`). -/
structure TEntry where
  path : String
  name : String
  kind : Option GObjectType

/-- Outcome of the walk closure in `get_tree`: the sink invocations in
order, the final value of the closure's captured copy of `cnt`, and the
error when a sink failure made the callback return `TreeWalkResult::Abort`
(which `walk` surfaces as an error). -/
structure WalkOut (ε : Type) where
  emitted : List String
  closureCnt : Nat
  aborted : Option ε
  deriving Repr

/-- Models the callback loop of `head.walk(TreeWalkMode::PreOrder, ...)` in
`get_tree`. Non-blob entries are skipped without touching the counter or
the sink. For a blob, the full path is built, the closure's captured copy
of `cnt` is incremented, and the sink is invoked; a sink error aborts the
walk. `cnt` here is the closure's own copy: the closure is `move` and
`usize` is `Copy`, so the increments never reach the caller's binding. -/
def walkGo (updater : String → Except ε Unit) : List TEntry → Nat → WalkOut ε
  | [], cnt => ⟨[], cnt, none⟩
  | e :: rest, cnt =>
    if e.kind = some GObjectType.Blob then
      let result := e.path ++ e.name
      match updater result with
      | Except.error err => ⟨[result], cnt + 1, some err⟩
      | Except.ok _ =>
        let w := walkGo updater rest (cnt + 1)
        ⟨result :: w.emitted, w.closureCnt, w.aborted⟩
    else
      walkGo updater rest cnt

/-- Models `get_tree`: bind the outer `cnt` to 0, run the walk (whose `move`
closure receives a copy of `cnt` and increments only that copy), propagate
a walk error, and otherwise return the outer `cnt` binding — which the
closure's increments never touched. -/
def get_tree (entries : List TEntry) (updater : String → Except ε Unit) : Except ε Nat :=
  let cnt : Nat := 0
  let w := walkGo updater entries cnt
  match w.aborted with
  | some err => Except.error err
  | none => Except.ok cnt

/-- A sink that always accepts, modelling a channel send (or vector push)
that cannot fail while the receiver is alive. -/
def okSink : String → Except Unit Unit := fun _ => Except.ok ()

/-- Models the loop of `retry`. The `FnMut` operation is modelled as the
sequence of results of its successive calls: `f i` is the result of call
number `i` (0-based). `i` counts the calls made so far and `sleeps` the
interval waits taken so far; the last argument is the remaining-attempts
counter (`attempts: u8` in the source), decremented after each failure.
On success the value is returned at once; on failure with the counter at 0
the error is returned; otherwise one fixed-interval wait
(`tokio::time::sleep(interval)`) is taken and the loop retries. The result
is `(outcome, total calls, total interval waits)`; the duration itself is
real time and is modelled only by the wait count. -/
def retryGo (f : Nat → Except E V) (i sleeps : Nat) : Nat → Except E V × Nat × Nat
  | 0 =>
    match f i with
    | Except.ok v => (Except.ok v, i + 1, sleeps)
    | Except.error e => (Except.error e, i + 1, sleeps)
  | a + 1 =>
    match f i with
    | Except.ok v => (Except.ok v, i + 1, sleeps)
    | Except.error _ => retryGo f (i + 1) (sleeps + 1) a

/-- Models `retry(f, attempts, interval)` from its initial state. -/
def retry (f : Nat → Except E V) (attempts : Nat) : Except E V × Nat × Nat :=
  retryGo f 0 0 attempts

/-- The accumulator's loop guard `c.is_none() || count < c.unwrap()`. -/
def accCond (count : Nat) (c : Option Nat) : Bool :=
  match c with
  | none => true
  | some n => decide (count < n)

/-- Models the accumulator task's loop in `multi_threaded` on a given
delivery stream: while the guard holds, receive the next message; a
`Count i` records the expected total, a `Blame b` is folded with
`blame_acc`; either way `count` is incremented. Returns `none` when the
stream is exhausted while the guard still holds (the task would block on
`recv` forever), and otherwise the final tally together with the number of
`Blame` (partial) messages actually folded. -/
def accRun : List BlameMessage → Nat → Option Nat → HBlames → Nat → Option (HBlames × Nat)
  | msgs, count, c, hm, folded =>
    match accCond count c, msgs with
    | false, _ => some (hm, folded)
    | true, [] => none
    | true, BlameMessage.Count i :: rest => accRun rest (count + 1) (some i) hm folded
    | true, BlameMessage.Blame b :: rest => accRun rest (count + 1) c (blame_acc hm b) (folded + 1)

/-- Models `single_threaded`: collect every path emitted by the tree walk
(the sink only pushes onto a vector and never fails), blame each file, and
fold the maps with `blame_fold` from the empty map, sorting the result with
`hm_into_vec`. The `expect("unblamable")` panic on a blame failure aborts
the whole process; it is modelled as `none`. -/
def single_threaded (entries : List TEntry) (oracle : String → Except Unit HBlames) : Option Blames :=
  let files := (walkGo okSink entries 0).emitted
  match files.mapM oracle with
  | Except.error _ => none
  | Except.ok bs => some (hm_into_vec (bs.foldl blame_fold []))

/-- Models the walker task of `multi_threaded`: it runs `get_tree` with the
work-queue send as sink (which blocks rather than fails while workers hold
the receiver) and then sends `BlameMessage.Count` carrying `get_tree`'s
returned value; the `unwrap` on that value is modelled by `toOption.getD`. -/
def walkerCount (entries : List TEntry) : Nat :=
  (get_tree entries okSink).toOption.getD 0

/-- Models one worker task of `multi_threaded` over the list of work items
it receives before cancellation, in order: a successful blame is wrapped as
a `Blame` message and sent (via `retry`, which succeeds whenever the result
queue has room); a `BlameError` makes the worker's `unwrap` panic, killing
that task — nothing further is sent and the remaining items are never
processed. The boolean is false when the task died this way. -/
def workerRun (oracle : String → Except Unit HBlames) : List String → List BlameMessage × Bool
  | [] => ([], true)
  | f :: rest =>
    match oracle f with
    | Except.error _ => ([], false)
    | Except.ok b =>
      let r := workerRun oracle rest
      (BlameMessage.Blame b :: r.1, r.2)

/-- Achievable accumulator input streams of one `multi_threaded` run: the
single `Count` message carrying `get_tree`'s returned value, interleaved in
any order with `Blame` messages for some sub-collection of the emitted
files (each item is taken by at most one worker, worker sends interleave
arbitrarily, and the accumulator may terminate before later sends are
delivered). Every file appearing must blame successfully, since a failing
one kills its worker before any send. -/
def validSchedule (entries : List TEntry) (oracle : String → Except Unit HBlames)
    (msgs : List BlameMessage) : Prop :=
  ∃ files : List String, ∃ bs : List HBlames,
    files.Subperm (walkGo okSink entries 0).emitted ∧
    files.mapM oracle = Except.ok bs ∧
    msgs.Perm (BlameMessage.Count (walkerCount entries) :: bs.map BlameMessage.Blame)

/-- Models the result published by `multi_threaded` when the accumulator
consumes the delivery stream `msgs`: the accumulator folds until its
termination condition, then cancels the token and sends `hm_into_vec` of
its tally to the print channel, which `multi_threaded` returns. `none`
models the accumulator (and hence `for_print.recv()`) blocking forever. -/
def multi_threaded (entries : List TEntry) (oracle : String → Except Unit HBlames)
    (msgs : List BlameMessage) : Option Blames :=
  match accRun msgs 0 none [] 0 with
  | none => none
  | some (hm, _) => some (hm_into_vec hm)

/-- Models the output loop of `main`: with `--top 0` every record of the
ranked table is serialized; with `--top K`, `K ≥ 1`, the loop serializes
`blames.get(i)` for each `i in 0..K` — an `Option` that is `none` past the
end of the table. -/
def mainOutput (blames : Blames) (top : Nat) : List (Option Blame) :=
  if top = 0 then blames.map some
  else (List.range top).map fun i => blames[i]?

/-- Models `CancellationToken`: the boolean behind the shared mutex. -/
structure CancellationToken where
  sender : Bool
  deriving DecidableEq, Repr

/-- Models `CancellationToken::new`: the flag starts false. -/
def CancellationToken.new : CancellationToken := ⟨false⟩

/-- Models `cancel`: store `true` into the shared flag, whatever it held. -/
def CancellationToken.cancel (t : CancellationToken) : CancellationToken := ⟨true⟩

/-- Models `is_cancelled`: read the shared flag. -/
def CancellationToken.is_cancelled (t : CancellationToken) : Bool := t.sender

/-- The operations the token API offers: `cancel`, or a read-only
`is_cancelled` poll. -/
inductive TokenOp where
  | cancelOp
  | queryOp

/-- Applies one token operation to the shared state. -/
def applyOp (t : CancellationToken) : TokenOp → CancellationToken
  | TokenOp.cancelOp => t.cancel
  | TokenOp.queryOp => t

/-- Applies a sequence of token operations in order. -/
def applyOps (t : CancellationToken) : List TokenOp → CancellationToken
  | [] => t
  | op :: rest => applyOps (applyOp t op) rest

/-- The full paths of the leaf (blob) entries of a walk, in walk order. -/
def leafPaths (entries : List TEntry) : List String :=
  (entries.filter fun e => e.kind = some GObjectType.Blob).map fun e => e.path ++ e.name

/-! Concrete inputs used by the claim theorems. -/

/-- A one-leaf snapshot: a single blob `a.txt` at the tree root. -/
def exEntries : List TEntry := [⟨"", "a.txt", some GObjectType.Blob⟩]

/-- A blame oracle attributing 10 lines to alice for every file. -/
def exOracle : String → Except Unit HBlames := fun _ => Except.ok [("alice", 10)]

/-- A blame oracle failing with a BlameError on every file. -/
def badOracle : String → Except Unit HBlames := fun _ => Except.error ()

/-- An operation that fails on every call. -/
def failAlways : Nat → Except Unit Unit := fun _ => Except.error ()

/-- An operation that fails on its first call and succeeds on the second. -/
def exF : Nat → Except Unit Nat := fun i => if i = 0 then Except.error () else Except.ok 7

/-- Two per-file attribution maps, in one worker-arrival order. -/
def msA : List HBlames := [[("x", 1), ("y", 2)], [("x", 3)]]

/-- The same two attribution maps in the opposite arrival order. -/
def msB : List HBlames := [[("x", 3)], [("x", 1), ("y", 2)]]

/-! Lemmas about the association-map operations shared by the fold and
blame theorems. -/

theorem lookupD_insertAdd (hm : HBlames) (k a : String) (v : Nat) :
    lookupD (insertAdd hm k v) a = lookupD hm a + (if k = a then v else 0) := by
  induction hm with
  | nil =>
    simp only [insertAdd, lookupD]
    split_ifs <;> simp
  | cons hd tl ih =>
    obtain ⟨k', v'⟩ := hd
    by_cases hkk : k' = k
    · subst hkk
      simp only [insertAdd, if_pos rfl, lookupD]
      split_ifs with ha
      · omega
      · simp
    · by_cases ha : k' = a
      · subst ha
        have hka : ¬ k = k' := fun h => hkk h.symm
        simp [insertAdd, hkk, lookupD, hka]
      · simp [insertAdd, hkk, lookupD, ha, ih]

theorem keySum_cons (a : String) (k : String) (v : Nat) (m : HBlames) :
    keySum a ((k, v) :: m) = (if k = a then v else 0) + keySum a m := by
  simp only [keySum, List.filter]
  by_cases h : k = a
  · simp [h]
  · simp [h]

theorem lookupD_fold_step (b : HBlames) :
    ∀ (hm : HBlames) (a : String),
      lookupD (b.foldl (fun h p => insertAdd h p.1 p.2) hm) a = lookupD hm a + keySum a b := by
  induction b with
  | nil => intro hm a; simp [keySum]
  | cons hd tl ih =>
    intro hm a
    obtain ⟨k, v⟩ := hd
    simp only [List.foldl_cons]
    rw [ih, lookupD_insertAdd, keySum_cons]
    omega

theorem lookupD_blame_fold (hm b : HBlames) (a : String) :
    lookupD (blame_fold hm b) a = lookupD hm a + keySum a b :=
  lookupD_fold_step b hm a

theorem lookupD_foldl_blame_fold (ms : List HBlames) :
    ∀ (init : HBlames) (a : String),
      lookupD (ms.foldl blame_fold init) a = lookupD init a + (ms.map fun m => keySum a m).sum := by
  induction ms with
  | nil => intro init a; simp
  | cons hd tl ih =>
    intro init a
    rw [List.foldl_cons, ih, lookupD_blame_fold]
    simp [Nat.add_assoc]

theorem keySum_of_not_mem (a : String) (m : HBlames) (h : ∀ p ∈ m, p.1 ≠ a) :
    keySum a m = 0 := by
  induction m with
  | nil => rfl
  | cons hd tl ih =>
    rw [show hd = (hd.1, hd.2) from rfl, keySum_cons]
    have h1 : hd.1 ≠ a := h hd (List.mem_cons_self hd tl)
    rw [if_neg h1, ih fun p hp => h p (List.mem_cons_of_mem hd hp)]

theorem keySum_eq_lookupD (a : String) (m : HBlames) (h : (m.map Prod.fst).Nodup) :
    keySum a m = lookupD m a := by
  induction m with
  | nil => rfl
  | cons hd tl ih =>
    obtain ⟨k, v⟩ := hd
    rw [List.map_cons, List.nodup_cons] at h
    rw [keySum_cons]
    by_cases hk : k = a
    · have hz : keySum a tl = 0 := by
        apply keySum_of_not_mem
        intro p hp hpa
        have hmem : p.1 ∈ tl.map Prod.fst := List.mem_map_of_mem Prod.fst hp
        rw [hpa, ← hk] at hmem
        exact h.1 hmem
      simp [lookupD, hk, hz]
    · simp [lookupD, hk, ih h.2]

/-! Lemmas about the retry combinator. -/

theorem retryGo_bounds (f : Nat → Except E V) (n : Nat) :
    ∀ i s, i + 1 ≤ (retryGo f i s n).2.1
      ∧ (retryGo f i s n).2.1 ≤ i + n + 1
      ∧ (retryGo f i s n).2.2 + i + 1 = (retryGo f i s n).2.1 + s := by
  induction n with
  | zero =>
    intro i s
    simp only [retryGo]
    cases f i <;> dsimp only <;> exact ⟨by omega, by omega, by omega⟩
  | succ a ih =>
    intro i s
    simp only [retryGo]
    cases f i with
    | ok v => dsimp only; exact ⟨by omega, by omega, by omega⟩
    | error e =>
      dsimp only
      obtain ⟨h1, h2, h3⟩ := ih (i + 1) (s + 1)
      exact ⟨by omega, by omega, by omega⟩

theorem retryGo_first_ok (f : Nat → Except E V) :
    ∀ (k : Nat), ∀ (n i s : Nat) (v : V),
      (∀ j, i ≤ j → j < i + k → (f j).isOk = false) → f (i + k) = Except.ok v → k ≤ n →
      retryGo f i s n = (Except.ok v, i + k + 1, s + k) := by
  intro k
  induction k with
  | zero =>
    intro n i s v hfail hok hle
    have hok' : f i = Except.ok v := hok
    cases n with
    | zero =>
      simp only [retryGo, hok']
      rfl
    | succ a =>
      simp only [retryGo, hok']
      rfl
  | succ k ih =>
    intro n i s v hfail hok hle
    have hfi : (f i).isOk = false := hfail i (Nat.le_refl i) (by omega)
    cases n with
    | zero => omega
    | succ a =>
      simp only [retryGo]
      cases hfe : f i with
      | ok w => rw [hfe] at hfi; simp [Except.isOk, Except.toBool] at hfi
      | error e =>
        dsimp only
        have hrec := ih a (i + 1) (s + 1) v
          (fun j hj1 hj2 => hfail j (by omega) (by omega))
          (by rw [show i + 1 + k = i + (k + 1) from by omega]; exact hok)
          (by omega)
        rw [hrec]
        simp only [Prod.mk.injEq]
        exact ⟨trivial, by omega, by omega⟩

theorem retryGo_all_fail (f : Nat → Except E V) :
    ∀ (n i s : Nat) (e : E),
      (∀ j, i ≤ j → j < i + n → (f j).isOk = false) → f (i + n) = Except.error e →
      retryGo f i s n = (Except.error e, i + n + 1, s + n) := by
  intro n
  induction n with
  | zero =>
    intro i s e hfail herr
    have herr' : f i = Except.error e := herr
    simp only [retryGo, herr']
    rfl
  | succ a ih =>
    intro i s e hfail herr
    have hfi : (f i).isOk = false := hfail i (Nat.le_refl i) (by omega)
    simp only [retryGo]
    cases hfe : f i with
    | ok w => rw [hfe] at hfi; simp [Except.isOk, Except.toBool] at hfi
    | error e' =>
      dsimp only
      have hrec := ih (i + 1) (s + 1) e
        (fun j hj1 hj2 => hfail j (by omega) (by omega))
        (by rw [show i + 1 + a = i + (a + 1) from by omega]; exact herr)
      rw [hrec]
      simp only [Prod.mk.injEq]
      exact ⟨trivial, by omega, by omega⟩

/-! Lemmas about the output loop and the tree walk. -/

theorem range_map_getElem (l : Blames) :
    ∀ K : Nat, (List.range K).map (fun i => l[i]?)
      = (l.take K).map some ++ List.replicate (K - l.length) none := by
  induction l with
  | nil =>
    intro K
    simp [List.map_const']
  | cons x xs ih =>
    intro K
    cases K with
    | zero => simp
    | succ K' =>
      rw [List.range_succ_eq_map, List.map_cons, List.map_map]
      have hcomp : ((fun i => (x :: xs)[i]?) ∘ Nat.succ) = fun i => xs[i]? := by
        funext i
        simp
      rw [hcomp, ih K']
      simp

theorem walkGo_okSink (entries : List TEntry) :
    ∀ cnt, (walkGo okSink entries cnt).emitted = leafPaths entries
      ∧ (walkGo okSink entries cnt).closureCnt = cnt + (leafPaths entries).length
      ∧ (walkGo okSink entries cnt).aborted = none := by
  induction entries with
  | nil => intro cnt; simp [walkGo, leafPaths]
  | cons e rest ih =>
    intro cnt
    by_cases hk : e.kind = some GObjectType.Blob
    · obtain ⟨h1, h2, h3⟩ := ih (cnt + 1)
      simp only [walkGo, if_pos hk, okSink]
      refine ⟨?_, ?_, ?_⟩
      · simp [leafPaths, hk, h1]
      · simp [leafPaths, hk] at h2 ⊢
        omega
      · exact h3
    · obtain ⟨h1, h2, h3⟩ := ih cnt
      simp only [walkGo, if_neg hk]
      refine ⟨?_, ?_, ?_⟩
      · simpa [leafPaths, hk] using h1
      · simpa [leafPaths, hk] using h2
      · exact h3

/-! Helper facts about the String order used by the sort claims. -/

theorem ba_not_le : ¬ (("b" : String) ≤ "a") := by
  rw [String.le_iff_toList_le]
  decide

/-! Claim theorems. -/

/-- C1: on a snapshot with one Blob leaf and one Tree entry, the walk invokes
the sink exactly once — for the leaf, never for the directory — and the
closure's counter reaches 1, yet `get_tree` returns 0 rather than the leaf
count: the `move` closure increments its own copy of `cnt`. -/
theorem get_tree_count_bug :
    get_tree [⟨"", "a.txt", some GObjectType.Blob⟩, ⟨"", "dir", some GObjectType.Tree⟩] okSink
      = Except.ok 0
    ∧ (walkGo okSink [⟨"", "a.txt", some GObjectType.Blob⟩, ⟨"", "dir", some GObjectType.Tree⟩] 0).emitted
      = ["a.txt"]
    ∧ (walkGo okSink [⟨"", "a.txt", some GObjectType.Blob⟩, ⟨"", "dir", some GObjectType.Tree⟩] 0).closureCnt
      = 1 :=
  ⟨rfl, by decide, rfl⟩

/-- C2: the accumulator counts the `Count` message itself toward the expected
total. On the stream `[Count 1, Blame m]` — exactly one Count(1) and one
partial — it terminates right after the Count, folding 0 partials instead
of 1; with the Count delivered last it folds 1, so the consumed-partials
total depends on the interleaving. -/
theorem accumulator_counts_count_message :
    accRun [BlameMessage.Count 1, BlameMessage.Blame [("alice", 1)]] 0 none [] 0 = some ([], 0)
    ∧ accRun [BlameMessage.Blame [("alice", 1)], BlameMessage.Count 1] 0 none [] 0
      = some ([("alice", 1)], 1) :=
  ⟨rfl, rfl⟩

/-- C3: on a one-file snapshot there is an achievable delivery schedule — the
walker's Count message, which carries `get_tree`'s returned 0, arriving
first — on which the concurrent pipeline publishes an empty tally while the
sequential pipeline publishes `[(alice, 10)]`. -/
theorem modes_not_equivalent :
    validSchedule exEntries exOracle [BlameMessage.Count 0]
    ∧ multi_threaded exEntries exOracle [BlameMessage.Count 0] = some []
    ∧ single_threaded exEntries exOracle = some [⟨"alice", 10⟩] := by
  refine ⟨⟨[], [], List.nil_subperm, rfl, List.Perm.refl _⟩, rfl, by decide⟩

/-- C4 counterexample: for the tally whose iteration order is
`[(b, 1), (a, 1)]` the stable sort keeps `b` before `a`: the adjacent pair
has equal line counts but descending authors, so the claimed lexicographic
tie-break fails. -/
theorem sort_tiebreak_violated :
    ¬ List.Chain' (fun a b => b.lines ≤ a.lines ∧ (a.lines = b.lines → a.author ≤ b.author))
      (hm_into_vec [("b", 1), ("a", 1)]) := by
  intro h
  have he : hm_into_vec [("b", 1), ("a", 1)] = [⟨"b", 1⟩, ⟨"a", 1⟩] := by decide
  rw [he, List.chain'_cons] at h
  exact ba_not_le (h.1.2 rfl)

/-- C4 amended: every adjacent pair `(a, b)` of `hm_into_vec`'s output
satisfies `a.lines ≥ b.lines`; the sort compares only line counts, so ties
keep the tally's iteration order rather than ascending author order. -/
theorem hm_into_vec_sorted (authors : HBlames) :
    List.Chain' (fun a b => b.lines ≤ a.lines) (hm_into_vec authors) :=
  (List.sorted_insertionSort blameGE _).chain'

/-- C5: folding any list of attribution maps with `blame_fold` from the empty
map gives every author the sum of that author's counts over the maps; the
resulting map is extensionally the same for any permutation of the maps;
and `blame_acc` is the same fold step as `blame_fold`. -/
theorem blame_fold_sum_perm (ms ms' : List HBlames) (hperm : ms.Perm ms')
    (hkeys : ∀ m ∈ ms, (m.map Prod.fst).Nodup) :
    (∀ a, lookupD (ms.foldl blame_fold []) a = (ms.map fun m => lookupD m a).sum)
    ∧ (∀ a, lookupD (ms.foldl blame_fold []) a = lookupD (ms'.foldl blame_fold []) a)
    ∧ blame_acc = blame_fold := by
  have hsum : ∀ (xs : List HBlames) (a : String),
      lookupD (xs.foldl blame_fold []) a = (xs.map fun m => keySum a m).sum := by
    intro xs a
    rw [lookupD_foldl_blame_fold]
    simp [lookupD]
  refine ⟨?_, ?_, rfl⟩
  · intro a
    rw [hsum]
    congr 1
    refine List.map_congr_left ?_
    intro m hm
    exact keySum_eq_lookupD a m (hkeys m hm)
  · intro a
    rw [hsum, hsum]
    exact (hperm.map fun m => keySum a m).sum_eq

/-- C5 witness: the fold theorem applied to two concrete attribution maps in
both arrival orders. -/
theorem blame_fold_sum_perm_witness :
    (msA.Perm msB ∧ ∀ m ∈ msA, (m.map Prod.fst).Nodup)
    ∧ ((∀ a, lookupD (msA.foldl blame_fold []) a = (msA.map fun m => lookupD m a).sum)
       ∧ (∀ a, lookupD (msA.foldl blame_fold []) a = lookupD (msB.foldl blame_fold []) a)
       ∧ blame_acc = blame_fold) :=
  ⟨⟨by decide, by decide⟩, blame_fold_sum_perm msA msB (by decide) (by decide)⟩

/-- C6 counterexample: with an attempt budget of 0 the operation is still
called once, so `retry` does not attempt `f` at most `n` times in total —
the budget counts retries after the initial attempt. -/
theorem retry_exceeds_attempt_budget :
    (retry failAlways 0).2.1 = 1 ∧ ¬ ((retry failAlways 0).2.1 ≤ 0) :=
  ⟨rfl, by decide⟩

/-- C6 amended: `retry f n d` calls `f` at most n + 1 times (one initial
attempt plus up to n retries), takes exactly one fixed-interval wait
between consecutive calls, returns the first success with no further
calls, and when every attempt fails returns the last error after exactly
n + 1 calls and n waits. -/
theorem retry_spec (f : Nat → Except E V) (n : Nat) :
    (retry f n).2.1 ≤ n + 1
    ∧ (retry f n).2.2 + 1 = (retry f n).2.1
    ∧ (∀ k v, (∀ j, j < k → (f j).isOk = false) → f k = Except.ok v → k ≤ n →
        retry f n = (Except.ok v, k + 1, k))
    ∧ (∀ e, (∀ j, j < n → (f j).isOk = false) → f n = Except.error e →
        retry f n = (Except.error e, n + 1, n)) := by
  simp only [retry]
  obtain ⟨h1, h2, h3⟩ := retryGo_bounds f n 0 0
  refine ⟨by omega, by omega, ?_, ?_⟩
  · intro k v hfail hok hk
    have hr := retryGo_first_ok f k n 0 0 v (fun j hj1 hj2 => hfail j (by omega))
      (by simpa using hok) hk
    simpa using hr
  · intro e hfail herr
    have hr := retryGo_all_fail f n 0 0 e (fun j hj1 hj2 => hfail j (by omega))
      (by simpa using herr)
    simpa using hr

/-- C6 witness: the retry theorem applied to an operation failing once then
succeeding, with budget 2: two calls, one wait, first success returned. -/
theorem retry_spec_witness :
    (∀ j, j < 1 → (exF j).isOk = false) ∧ retry exF 2 = (Except.ok 7, 2, 1) :=
  ⟨by decide, (retry_spec exF 2).2.2.1 1 7 (by decide) rfl (by decide)⟩

/-- C7: a work item whose blame fails is not caught and skipped: in
sequential mode the `expect("unblamable")` panic aborts the whole run
(`none`), and in concurrent mode the worker's `unwrap` panic kills the
worker task, which sends nothing and never reaches later items. -/
theorem blame_error_not_caught :
    single_threaded [⟨"", "bad.bin", some GObjectType.Blob⟩] badOracle = none
    ∧ workerRun badOracle ["bad.bin", "good.txt"] = ([], false) :=
  ⟨rfl, rfl⟩

/-- C8 counterexample: with one record and `--top 2`, the output is not the
one-record top-K prefix — the loop serializes `blames.get(i)` for every
`i < 2` and so emits a second, empty (`none`) row. -/
theorem top_k_pads_past_end :
    ¬ (mainOutput [⟨"alice", 1⟩] 2 = (([⟨"alice", 1⟩] : Blames).take 2).map some) := by
  decide

/-- C8 amended: with `--top K`, K ≥ 1, the program emits exactly K rows; when
K ≤ table length those are exactly the first K records, and when K exceeds
the length the table is followed by K − length empty (`none`) rows rather
than the output stopping at the table's end. -/
theorem top_output_spec (blames : Blames) (K : Nat) (h : 1 ≤ K) :
    (mainOutput blames K).length = K
    ∧ (K ≤ blames.length → mainOutput blames K = (blames.take K).map some)
    ∧ (blames.length ≤ K →
        mainOutput blames K = blames.map some ++ List.replicate (K - blames.length) none) := by
  have hK : K ≠ 0 := by omega
  simp only [mainOutput, if_neg hK]
  rw [range_map_getElem]
  refine ⟨?_, ?_, ?_⟩
  · simp only [List.length_append, List.length_map, List.length_take, List.length_replicate]
    omega
  · intro hle
    rw [show K - blames.length = 0 from by omega]
    simp
  · intro hle
    rw [List.take_of_length_le hle]

/-- C8 witness: the amended top-K theorem applied to a one-record table with
`--top 2`. -/
theorem top_output_spec_witness :
    (1 ≤ 2)
    ∧ ((mainOutput [⟨"alice", 1⟩] 2).length = 2
       ∧ (2 ≤ ([⟨"alice", 1⟩] : Blames).length →
           mainOutput [⟨"alice", 1⟩] 2 = (([⟨"alice", 1⟩] : Blames).take 2).map some)
       ∧ (([⟨"alice", 1⟩] : Blames).length ≤ 2 →
           mainOutput [⟨"alice", 1⟩] 2
             = ([⟨"alice", 1⟩] : Blames).map some
               ++ List.replicate (2 - ([⟨"alice", 1⟩] : Blames).length) none)) :=
  ⟨by decide, top_output_spec [⟨"alice", 1⟩] 2 (by decide)⟩

/-- C9: a fresh token is not cancelled, `cancel` sets the flag and is
idempotent, and no sequence of token operations ever resets a cancelled
token — the flag is monotonic. -/
theorem cancellation_token_monotone :
    CancellationToken.new.is_cancelled = false
    ∧ (∀ t : CancellationToken, t.cancel.is_cancelled = true)
    ∧ (∀ t : CancellationToken, t.cancel.cancel = t.cancel)
    ∧ (∀ (t : CancellationToken) (ops : List TokenOp),
        t.is_cancelled = true → (applyOps t ops).is_cancelled = true) := by
  refine ⟨rfl, fun t => rfl, fun t => rfl, ?_⟩
  intro t ops
  induction ops generalizing t with
  | nil => intro h; exact h
  | cons op rest ih =>
    intro h
    cases op with
    | cancelOp => exact ih (applyOp t TokenOp.cancelOp) rfl
    | queryOp => exact ih t h

/-- C9 witness: the token theorem applied to a cancelled token and a concrete
sequence of later operations. -/
theorem cancellation_token_monotone_witness :
    CancellationToken.new.cancel.is_cancelled = true
    ∧ (applyOps CancellationToken.new.cancel [TokenOp.queryOp, TokenOp.cancelOp]).is_cancelled
      = true :=
  ⟨cancellation_token_monotone.2.1 CancellationToken.new,
   cancellation_token_monotone.2.2.2 CancellationToken.new.cancel
     [TokenOp.queryOp, TokenOp.cancelOp] rfl⟩

theorem lookupD_blame_file_go (hunks : List BlameHunk) :
    ∀ (init : HBlames) (a : String),
      lookupD (hunks.foldl
          (fun authors ch => insertAdd authors (ch.email.getD "unknown") ch.lines_in_hunk) init) a
        = lookupD init a
          + ((hunks.filter fun ch => ch.email.getD "unknown" = a).map BlameHunk.lines_in_hunk).sum := by
  induction hunks with
  | nil => intro init a; simp
  | cons ch rest ih =>
    intro init a
    simp only [List.foldl_cons]
    rw [ih, lookupD_insertAdd]
    by_cases hc : ch.email.getD "unknown" = a
    · simp [List.filter_cons, hc]
      omega
    · simp [List.filter_cons, hc]

/-- C10: `blame_file` gives each author exactly the sum of `lines_in_hunk`
over the hunks whose signature email (defaulted to "unknown" when absent)
is that author; in particular every email-less hunk contributes to the
single "unknown" entry. -/
theorem blame_file_sums (hunks : List BlameHunk) (a : String) :
    lookupD (blame_file hunks) a
      = ((hunks.filter fun ch => ch.email.getD "unknown" = a).map BlameHunk.lines_in_hunk).sum := by
  have h := lookupD_blame_file_go hunks [] a
  simpa [blame_file, lookupD] using h
